import Mathlib

/-!
Verification of the `FirestoreUtil` helper class (firebase-helpers).

The TypeScript source is shallowly embedded as follows.

* A JavaScript object (a document payload) is an association list
  `Obj := List (String × Value)` in property order.  JavaScript objects never
  hold two properties of the same key; where a statement needs that fact it
  carries an explicit `countKey … ≤ 1` hypothesis instead of baking it into
  the type.
* A storage-engine document snapshot is `Snap` (`id`, fully qualified `path`,
  and the stored `data`).  The engine itself is a function
  `String → Option Snap` for single-document fetches, and a collection is the
  name-ordered list of its snapshots (Firestore orders a query by `__name__`
  when no explicit ordering is given, which is the configuration the cursor
  pipeline uses).
* `number` fields that the code uses as sizes (`interval`, `batchSize`) are
  `Nat`; JavaScript truthiness tests (`if (cursor.interval)`,
  `if (cursor.startAfter)`) are modelled exactly: `0`, `undefined` and the
  empty string are falsy.
* Asynchronous results are values; a promise that can reject is an
  `Except`/sum-like value, and the possibility that a promise never settles
  is modelled explicitly (see `DelOutcome`).
* In-place mutation of caller-supplied arguments is stated against a
  store-passing form of the relevant functions (`Store`, `queryDataStore`,
  `cursorQueryStore`, `applyQueryConstraintsStore`): an object spread
  allocates a fresh heap cell, `delete` updates the cell it is applied to,
  and non-mutation of an argument is the fact that its cell is unchanged
  across the call.
-/

/-- A JavaScript value stored in a document field.  Only the shapes the
claims need are distinguished: strings (ids and reference paths) and an
opaque constructor for every other payload value. -/
inductive Value where
  | str : String → Value
  | nat : Nat → Value
deriving DecidableEq, Repr

/-- A JavaScript object in property order: an association list from property
keys to values. -/
abbrev Obj : Type := List (String × Value)

/-- Property read `o.k`: the first binding of key `k`. -/
def getField : Obj → String → Option Value
  | [], _ => none
  | (k', v) :: t, k => if k' = k then some v else getField t k

/-- Property write `o.k = v` (as performed by an object spread such as
`\x7b...data, id: ..., ref: ...\x7d`): replaces the binding of `k` in place if
present, otherwise appends it. -/
def setField : Obj → String → Value → Obj
  | [], k, v => [(k, v)]
  | (k', v') :: t, k, v => if k' = k then (k, v) :: t else (k', v') :: setField t k v

/-- Property deletion `delete o.k`: removes the binding of `k` (JavaScript
objects hold at most one). -/
def delField : Obj → String → Obj
  | [], _ => []
  | (k', v') :: t, k => if k' = k then t else (k', v') :: delField t k

/-- Number of bindings of key `k` in an object; a real JavaScript object has
`countKey o k ≤ 1` for every `k`. -/
def countKey (o : Obj) (k : String) : Nat :=
  o.countP (fun p => p.1 == k)

/-- `FirestoreUtil.queryData` (part_000 lines 17-22): clone the query result
(`\x7b ...qr \x7d`), then `delete clone.id` and `delete clone.ref`. -/
def queryData (o : Obj) : Obj :=
  delField (delField o "id") "ref"

/-- A storage-engine document snapshot: its system id, its fully qualified
reference path (`snapshot.ref.path`), and the stored payload. -/
structure Snap where
  id : String
  path : String
  data : Obj
deriving DecidableEq

/-- The item built from a snapshot by `docQuery`/`collectionQuery`
(part_000 lines 85-89 and 123-127):
`\x7b ...snapshot.data(), id: snapshot.id, ref: snapshot.ref.path \x7d`. -/
def buildItem (s : Snap) : Obj :=
  setField (setField s.data "id" (Value.str s.id)) "ref" (Value.str s.path)

/-- Reading the `ref` property of a result item (`data[_length - 1].ref` in
`cursorQuery`); the TypeScript type `T & QR` guarantees it is a string. -/
def itemRef (o : Obj) : String :=
  match getField o "ref" with
  | some (Value.str s) => s
  | _ => ""

/-- `FirestoreUtil.docQuery` (part_000 lines 77-93).  The engine is
`db : String → Option Snap`; `none` is a snapshot with `exists = false`.
The ternary `t ? t.get(ref) : ref.get()` reads the same engine state either
way (a transaction read of an unmodified document sees the stored value), so
both branches consult `db`. -/
def docQuery (db : String → Option Snap) (t : Bool) (refStr : String) : Option Obj :=
  match (if t then db refStr else db refStr) with
  | some s => some (buildItem s)
  | none => none

/-- `QueryCursor` (types.ts lines 33-37): page size `interval`, more-data hint
`hasNext`, and the optional continuation reference `startAfter`. -/
structure QueryCursor where
  interval : Nat
  hasNext : Bool
  startAfter : Option String
deriving DecidableEq

/-- JavaScript truthiness of an optional string (`undefined` and `""` are
falsy), as tested by `if (cursor.startAfter)`. -/
def strTruthy : Option String → Bool
  | none => false
  | some s => !(s == "")

/-- `FirestoreUtil._applyCursor` (part_000 lines 53-69), executed against the
collection it queries.  A query over a name-ordered collection is modelled by
the list of snapshots it would return.  `if (cursor.startAfter)` fetches the
referenced document and restarts strictly after it, which under `__name__`
ordering keeps exactly the snapshots whose path is greater; `if
(cursor.interval)` applies `limit(interval)` — both guards are JavaScript
truthiness tests, so a `0` interval and an absent/empty `startAfter` are
skipped. -/
def applyCursorModel (q : List Snap) (c : QueryCursor) : List Snap :=
  let q1 := if strTruthy c.startAfter then
      q.filter (fun x => decide (c.startAfter.getD "" < x.path))
    else q
  if c.interval ≠ 0 then q1.take c.interval else q1

/-- `FirestoreUtil.collectionQuery` (part_000 lines 102-131) with an empty
constraint list: apply the optional cursor, run the query, and convert each
snapshot via `\x7b ...snapshot.data(), id: snapshot.id, ref: snapshot.ref.path \x7d`. -/
def collectionQueryModel (l : List Snap) (c : Option QueryCursor) : List Obj :=
  (match c with
   | some cur => applyCursorModel l cur
   | none => l).map buildItem

/-- `FirestoreUtil.cursorQuery` (part_000 lines 141-164): default the cursor
to `\x7b interval: 10, hasNext: true \x7d`, run `collectionQuery`, then rebuild the
cursor: `startAfter` stays put on an empty page and otherwise becomes
`data[_length - 1].ref`; `hasNext` is `_length === cursor.interval`; the
spread `\x7b ...cursor, startAfter, hasNext \x7d` keeps `interval`. -/
def cursorQueryModel (l : List Snap) (c : Option QueryCursor) :
    List Obj × QueryCursor :=
  let cur := c.getD ⟨10, true, none⟩
  let data := collectionQueryModel l (some cur)
  let sa := match data.getLast? with
    | none => cur.startAfter
    | some last => some (itemRef last)
  (data, ⟨cur.interval, decide (data.length = cur.interval), sa⟩)

/-- One full pagination session: call `cursorQuery`, feed the returned cursor
back in, and stop as soon as the returned cursor has `hasNext = false`.
Returns the concatenation of all pages and the number of calls made; the
`fuel` argument only bounds the recursion and is never exhausted on the runs
the round-trip theorem describes. -/
def paginate (l : List Snap) : QueryCursor → Nat → List Obj × Nat
  | _, 0 => ([], 0)
  | c, fuel + 1 =>
    let r := cursorQueryModel l (some c)
    if r.2.hasNext then
      let rest := paginate l r.2 fuel
      (r.1 ++ rest.1, rest.2 + 1)
    else (r.1, 1)

/-- Pagination session over collection `l` with page size `p`, starting with
a fresh cursor (no continuation reference). -/
def paginateAll (l : List Snap) (p : Nat) : List Obj × Nat :=
  paginate l ⟨p, true, none⟩ (l.length + 1)

/-- The records of `l` still ahead of cursor `c` (the continuation step of
`applyCursorModel`, before the limit step); proof-side abbreviation. -/
def remQ (l : List Snap) (c : QueryCursor) : List Snap :=
  if strTruthy c.startAfter then
    l.filter (fun x => decide (c.startAfter.getD "" < x.path))
  else l

/-- `FirestoreUtil.deleteCollection`/`_deleteQueryBatch` (part_000 lines
184-218) on the success path.  The collection is the `__name__`-ordered list
of its document refs, so the query `orderBy("__name__").limit(batchSize)`
returns `l.take b` of the current state `l`.  Each round: run the query; if
the snapshot is empty, `resolve(true)`; otherwise delete the returned batch
atomically (the state becomes `l.drop b`) and recurse.  Returns the number
of query rounds issued, the deleted refs in deletion order, the final state
of the collection, and the value the promise resolves with. -/
def deleteRun (b : Nat) (l : List String) : Nat × List String × List String × Bool :=
  if h : l.take b = [] then
    (1, [], l, true)
  else
    let rest := deleteRun b (l.drop b)
    (rest.1 + 1, l.take b ++ rest.2.1, rest.2.2.1, rest.2.2.2)
termination_by l.length
decreasing_by
  have hb : b ≠ 0 ∧ l ≠ [] := by
    constructor <;> intro hc <;> simp [hc] at h
  simp only [List.length_drop]
  have : 0 < l.length := List.length_pos.mpr hb.2
  omega

/-- How the promise returned by `deleteCollection` can end up for a caller:
fulfilled, rejected, or never settled at all. -/
inductive DelOutcome (E : Type) where
  | resolved : Bool → DelOutcome E
  | rejected : E → DelOutcome E
  | pending : DelOutcome E
deriving DecidableEq

/-- The fate of `resolve` across the chain of `_deleteQueryBatch` rounds,
starting at round `n` with collection state `l`, when the storage engine is
allowed to fail: `fe r` (resp. `ce r`) is the error the round-`r`
`query.get()` (resp. `batch.commit()`) rejects with, if any.  `Sum.inr true`
means some round saw an empty snapshot and called `resolve(true)`;
`Sum.inl e` means a round's promise rejected with `e` and `resolve` was never
called. -/
def chainFrom (fe ce : Nat → Option E) (b : Nat) (n : Nat) (l : List String) :
    E ⊕ Bool :=
  match fe n with
  | some e => Sum.inl e
  | none =>
    if h : l.take b = [] then Sum.inr true
    else
      match ce n with
      | some e => Sum.inl e
      | none => chainFrom fe ce b (n + 1) (l.drop b)
termination_by l.length
decreasing_by
  have hb : b ≠ 0 ∧ l ≠ [] := by
    constructor <;> intro hc <;> simp [hc] at h
  simp only [List.length_drop]
  have : 0 < l.length := List.length_pos.mpr hb.2
  omega

/-- The settlement of the promise returned by `deleteCollection` under the
failure schedule `fe`/`ce` (rounds are numbered from 1).  Only the first
`_deleteQueryBatch` invocation is awaited through `.catch(reject)`
(part_000 lines 188-190): a rejection inside round 1 reaches `reject`.
Every later round runs detached inside `process.nextTick` (lines 215-217)
and its returned promise is dropped, so a rejection there reaches neither
`resolve` nor `reject` and the outer promise stays pending forever. -/
def deleteCollectionOutcome (fe ce : Nat → Option E) (b : Nat) (l : List String) :
    DelOutcome E :=
  match fe 1 with
  | some e => DelOutcome.rejected e
  | none =>
    if l.take b = [] then DelOutcome.resolved true
    else
      match ce 1 with
      | some e => DelOutcome.rejected e
      | none =>
        match chainFrom fe ce b 2 (l.drop b) with
        | Sum.inl _ => DelOutcome.pending
        | Sum.inr v => DelOutcome.resolved v

/-- Concrete snapshots used to instantiate theorems on closed inputs. -/
def snapA : Snap := ⟨"a", "items/a", []⟩

def snapB : Snap := ⟨"b", "items/b", [("v", Value.nat 1)]⟩

def snapC : Snap := ⟨"c", "items/c", []⟩

/-- A snapshot whose stored payload itself contains `id` and `ref` fields;
the returned item must carry the snapshot identity, not these values. -/
def snapEvil : Snap :=
  ⟨"realid", "items/realid",
    [("id", Value.str "payload-id"), ("ref", Value.str "payload-ref"),
     ("y", Value.nat 7)]⟩

/-- A concrete query-result item used to instantiate the `queryData` claim. -/
def objEx : Obj :=
  [("id", Value.str "a"), ("x", Value.nat 3), ("ref", Value.str "items/a")]

/-- A fragment of the JavaScript heap: numbered cells in allocation order.
In-place mutation is phrased against this store: an object spread such as
`\x7b...qr\x7d` allocates a fresh cell holding a copy, `delete` updates the cell
it is applied to, and a function mutates its argument exactly when the
argument's cell differs across the call. -/
structure Store (α : Type) where
  cells : List α
deriving DecidableEq

/-- Dereference address `a`.  Callers only ever pass live addresses; every
theorem about a read carries the corresponding bound as a hypothesis, so the
out-of-bounds default is never reached. -/
def Store.read [Inhabited α] (σ : Store α) (a : Nat) : α :=
  (σ.cells[a]?).getD default

/-- Overwrite the contents of cell `a`. -/
def Store.write (σ : Store α) (a : Nat) (v : α) : Store α :=
  ⟨σ.cells.set a v⟩

/-- Allocate a fresh cell holding `v`; returns the new store and the fresh
address. -/
def Store.alloc (σ : Store α) (v : α) : Store α × Nat :=
  (⟨σ.cells ++ [v]⟩, σ.cells.length)

instance : Inhabited QueryCursor := ⟨⟨0, false, none⟩⟩

/-- `QueryConstraint` (types.ts lines 6-30): either a `where` filter (field
path, comparison-operator string — applied with `constraint.opStr!` — and a
value) or an `orderBy` sort (field path and direction string). -/
inductive QueryConstraint where
  | whereC : String → String → Value → QueryConstraint
  | orderByC : String → String → QueryConstraint
deriving DecidableEq, Inhabited

/-- `FirestoreUtil.queryData` (part_000 lines 17-22) in store-passing form,
statement by statement: `const clone = \x7b...qr\x7d` allocates a fresh cell
holding a copy of the argument's object, `delete clone.id` and
`delete clone.ref` update that fresh cell, and the clone's address is
returned. -/
def queryDataStore (σ : Store Obj) (qr : Nat) : Store Obj × Nat :=
  let alloc1 := σ.alloc (σ.read qr)
  let σ1 := alloc1.1
  let clone := alloc1.2
  let σ2 := σ1.write clone (delField (σ1.read clone) "id")
  let σ3 := σ2.write clone (delField (σ2.read clone) "ref")
  (σ3, clone)

/-- `FirestoreUtil.cursorQuery` (part_000 lines 141-164) in store-passing
form for its cursor argument: the input cursor cell is only read, and the
returned cursor is the object literal `\x7b...cursor, startAfter, hasNext\x7d` —
a freshly allocated cell holding the advanced cursor value computed by
`cursorQueryModel`. -/
def cursorQueryStore (l : List Snap) (σ : Store QueryCursor) (cur : Nat) :
    Store QueryCursor × Nat × List Obj :=
  let r := cursorQueryModel l (some (σ.read cur))
  let alloc1 := σ.alloc r.2
  (alloc1.1, alloc1.2, r.1)

/-- `FirestoreUtil._applyQueryConstraints` (part_000 lines 30-45) in
store-passing form: the constraint list is traversed with `forEach` and each
constraint cell is only read (`constraint.type`, `.fieldPath`, …); the local
`q` is rebound to the new query handle that `q.orderBy(...)`/`q.where(...)`
returns, so the store comes back exactly as it went in.  A query handle is
modelled by its applied clauses in application order. -/
def applyQueryConstraintsStore (σ : Store QueryConstraint)
    (query : List QueryConstraint) (queryConstraints : List Nat) :
    Store QueryConstraint × List QueryConstraint :=
  (σ, queryConstraints.foldl
    (fun q ca =>
      match σ.read ca with
      | QueryConstraint.orderByC fieldPath directionStr =>
          q ++ [QueryConstraint.orderByC fieldPath directionStr]
      | QueryConstraint.whereC fieldPath opStr value =>
          q ++ [QueryConstraint.whereC fieldPath opStr value])
    query)

section ObjLemmas

/-- Unfolding `countKey` over a cons cell. -/
theorem countKey_cons (hd : String × Value) (tl : Obj) (k : String) :
    countKey (hd :: tl) k = countKey tl k + (if hd.1 = k then 1 else 0) := by
  by_cases h : hd.1 = k <;> simp [countKey, List.countP_cons, h]

/-- A key counted zero times is absent from every binding. -/
theorem countKey_eq_zero (o : Obj) (k : String) (h : countKey o k = 0) :
    ∀ p ∈ o, ¬p.1 = k := by
  intro p hp hpk
  induction o with
  | nil => cases hp
  | cons hd tl ih =>
    rw [countKey_cons] at h
    rcases List.mem_cons.mp hp with rfl | hmem
    · simp [hpk] at h
    · exact ih (by omega) hmem

/-- Reading back the key just written by `setField`. -/
theorem getField_setField_self (o : Obj) (k : String) (v : Value) :
    getField (setField o k v) k = some v := by
  induction o with
  | nil => simp [setField, getField]
  | cons hd tl ih =>
    by_cases h : hd.1 = k
    · simp [setField, h, getField]
    · simp [setField, h, getField, ih]

/-- `setField` does not touch other keys. -/
theorem getField_setField_ne (o : Obj) (k' k : String) (v : Value) (h : k' ≠ k) :
    getField (setField o k' v) k = getField o k := by
  induction o with
  | nil => simp [setField, getField, h]
  | cons hd tl ih =>
    by_cases hh : hd.1 = k'
    · simp [setField, hh, getField, h]
    · simp [setField, hh, getField, ih]

/-- After `setField o k v` the key `k` occurs exactly once, provided the
object held at most one binding of `k` (true of every JavaScript object). -/
theorem countKey_setField_self (o : Obj) (k : String) (v : Value)
    (h : countKey o k ≤ 1) : countKey (setField o k v) k = 1 := by
  induction o with
  | nil => simp [setField, countKey, List.countP_cons]
  | cons hd tl ih =>
    rw [countKey_cons] at h
    by_cases hh : hd.1 = k
    · have hcount : countKey tl k = 0 := by
        rw [if_pos hh] at h
        omega
      simp only [setField, if_pos hh]
      rw [countKey_cons, hcount]
      simp
    · have h' : countKey tl k ≤ 1 := by
        rw [if_neg hh] at h
        omega
      simp only [setField, if_neg hh]
      rw [countKey_cons, ih h', if_neg hh]

/-- `setField` at a different key does not change how often `k` occurs. -/
theorem countKey_setField_ne (o : Obj) (k' k : String) (v : Value) (h : k' ≠ k) :
    countKey (setField o k' v) k = countKey o k := by
  induction o with
  | nil => simp [setField, countKey, List.countP_cons, h]
  | cons hd tl ih =>
    by_cases hh : hd.1 = k'
    · simp only [setField, if_pos hh]
      rw [countKey_cons, countKey_cons, if_neg h, if_neg (hh ▸ h : ¬hd.1 = k)]
    · simp only [setField, if_neg hh]
      rw [countKey_cons, countKey_cons, ih]

/-- Deleting a key that occurs at most once is exactly filtering it out. -/
theorem delField_eq_filter (o : Obj) (k : String) (h : countKey o k ≤ 1) :
    delField o k = o.filter (fun p => !(p.1 == k)) := by
  induction o with
  | nil => simp [delField]
  | cons hd tl ih =>
    rw [countKey_cons] at h
    by_cases hh : hd.1 = k
    · have hcount : countKey tl k = 0 := by
        rw [if_pos hh] at h
        omega
      have hfilter : tl.filter (fun p => !(p.1 == k)) = tl := by
        rw [List.filter_eq_self]
        intro a ha
        have := countKey_eq_zero tl k hcount a ha
        simpa using this
      simp [delField, hh, hfilter]
    · have h' : countKey tl k ≤ 1 := by
        rw [if_neg hh] at h
        omega
      simp [delField, hh, ih h']

/-- Filtering keeps `countKey` bounded. -/
theorem countKey_filter_le (o : Obj) (q : String × Value → Bool) (k : String) :
    countKey (o.filter q) k ≤ countKey o k := by
  induction o with
  | nil => simp [countKey]
  | cons hd tl ih =>
    by_cases hq : q hd
    · rw [List.filter_cons_of_pos hq, countKey_cons, countKey_cons]
      omega
    · rw [List.filter_cons_of_neg hq, countKey_cons]
      omega

end ObjLemmas

/-- `queryData` on an object holding at most one `id` and one `ref` binding
(every JavaScript object does) is exactly the filter dropping those keys. -/
theorem queryData_eq_filter (o : Obj) (hid : countKey o "id" ≤ 1)
    (href : countKey o "ref" ≤ 1) :
    queryData o = o.filter (fun p => !(p.1 == "id") && !(p.1 == "ref")) := by
  have h2 : countKey (o.filter (fun p => !(p.1 == "id"))) "ref" ≤ 1 :=
    le_trans (countKey_filter_le o _ "ref") href
  rw [queryData, delField_eq_filter o "id" hid, delField_eq_filter _ "ref" h2,
    List.filter_filter]
  exact List.filter_congr (fun a _ => Bool.and_comm _ _)

/-- C7: for every result item `x` (a payload extended with `id` and `ref`,
hence holding each of those keys at most once), `queryData x` is `x` with
exactly the `id` and `ref` bindings removed and every other binding
unchanged (in place and in order), and `queryData` is idempotent on its own
output. -/
theorem queryData_removes_id_ref (o : Obj) (hid : countKey o "id" ≤ 1)
    (href : countKey o "ref" ≤ 1) :
    queryData o = o.filter (fun p => !(p.1 == "id") && !(p.1 == "ref")) ∧
    queryData (queryData o) = queryData o := by
  have hq := queryData_eq_filter o hid href
  refine ⟨hq, ?_⟩
  have hid2 : countKey (queryData o) "id" ≤ 1 := by
    rw [hq]
    exact le_trans (countKey_filter_le o _ "id") hid
  have href2 : countKey (queryData o) "ref" ≤ 1 := by
    rw [hq]
    exact le_trans (countKey_filter_le o _ "ref") href
  rw [queryData_eq_filter (queryData o) hid2 href2, hq, List.filter_filter]
  exact List.filter_congr (fun a _ => Bool.and_self _)

/-- Witness for C7 at a concrete item carrying `id`, a payload field and
`ref`. -/
theorem queryData_removes_id_ref_witness :
    queryData objEx = [("x", Value.nat 3)] ∧
    queryData (queryData objEx) = queryData objEx := by
  have h := queryData_removes_id_ref objEx (by decide) (by decide)
  exact ⟨h.1.trans (by decide), h.2⟩

/-- C8: a reference string that does not resolve to an existing document
makes `docQuery` return `none` rather than fail, with or without a
transaction handle. -/
theorem docQuery_missing_none (db : String → Option Snap) (t : Bool)
    (refStr : String) (h : db refStr = none) : docQuery db t refStr = none := by
  simp [docQuery, h]

/-- Witness for C8: an empty engine, queried both inside and outside a
transaction. -/
theorem docQuery_missing_none_witness :
    docQuery (fun _ => none) true "items/abc" = none ∧
    docQuery (fun _ => none) false "items/abc" = none :=
  ⟨docQuery_missing_none _ _ _ rfl, docQuery_missing_none _ _ _ rfl⟩

/-- Every snapshot an executed cursor query hands back was in the queried
collection. -/
theorem applyCursorModel_subset (q : List Snap) (c : QueryCursor) :
    ∀ x ∈ applyCursorModel q c, x ∈ q := by
  intro x hx
  simp only [applyCursorModel] at hx
  by_cases h2 : c.interval ≠ 0
  · rw [if_pos h2] at hx
    have hx' := List.take_subset _ _ hx
    by_cases h1 : strTruthy c.startAfter
    · rw [if_pos h1] at hx'
      exact List.mem_of_mem_filter hx'
    · rwa [if_neg h1] at hx'
  · rw [if_neg h2] at hx
    by_cases h1 : strTruthy c.startAfter
    · rw [if_pos h1] at hx
      exact List.mem_of_mem_filter hx
    · rwa [if_neg h1] at hx

/-- C6: every item returned by `docQuery`, `collectionQuery` or
`cursorQuery` is built from a storage snapshot by `buildItem`, and
`buildItem` gives the item exactly one `id` and one `ref` binding whose
values are the snapshot's id and fully qualified path — even when the stored
payload itself carries `id` or `ref` fields. -/
theorem returned_items_identity :
    (∀ (db : String → Option Snap) (t : Bool) (refStr : String) (s : Snap),
        db refStr = some s → docQuery db t refStr = some (buildItem s)) ∧
    (∀ (l : List Snap) (c : Option QueryCursor) (o : Obj),
        o ∈ collectionQueryModel l c → ∃ s ∈ l, o = buildItem s) ∧
    (∀ (l : List Snap) (c : Option QueryCursor) (o : Obj),
        o ∈ (cursorQueryModel l c).1 → ∃ s ∈ l, o = buildItem s) ∧
    (∀ s : Snap, countKey s.data "id" ≤ 1 → countKey s.data "ref" ≤ 1 →
        getField (buildItem s) "id" = some (Value.str s.id) ∧
        getField (buildItem s) "ref" = some (Value.str s.path) ∧
        countKey (buildItem s) "id" = 1 ∧
        countKey (buildItem s) "ref" = 1) := by
  have hcoll : ∀ (l : List Snap) (c : Option QueryCursor) (o : Obj),
      o ∈ collectionQueryModel l c → ∃ s ∈ l, o = buildItem s := by
    intro l c o ho
    unfold collectionQueryModel at ho
    rcases List.mem_map.mp ho with ⟨s, hs, rfl⟩
    refine ⟨s, ?_, rfl⟩
    cases c with
    | none => exact hs
    | some cur => exact applyCursorModel_subset l cur s hs
  refine ⟨?_, hcoll, ?_, ?_⟩
  · intro db t refStr s h
    simp [docQuery, h]
  · intro l c o ho
    exact hcoll l (some (c.getD ⟨10, true, none⟩)) o ho
  · intro s hid href
    have hne : ("ref" : String) ≠ "id" := by decide
    refine ⟨?_, ?_, ?_, ?_⟩
    · rw [buildItem, getField_setField_ne _ _ _ _ hne, getField_setField_self]
    · rw [buildItem, getField_setField_self]
    · rw [buildItem, countKey_setField_ne _ _ _ _ hne,
        countKey_setField_self _ _ _ hid]
    · rw [buildItem,
        countKey_setField_self _ _ _
          (le_of_eq_of_le (countKey_setField_ne s.data "id" "ref" _ (by decide)) href)]

/-- Witness for C6: the engine returns `snapEvil`, whose payload carries its
own `id` and `ref` fields; the returned item still holds the snapshot
identity exactly once. -/
theorem returned_items_identity_witness :
    docQuery (fun r => if r = "items/realid" then some snapEvil else none)
        false "items/realid" = some (buildItem snapEvil) ∧
    getField (buildItem snapEvil) "id" = some (Value.str "realid") ∧
    getField (buildItem snapEvil) "ref" = some (Value.str "items/realid") ∧
    countKey (buildItem snapEvil) "id" = 1 ∧
    countKey (buildItem snapEvil) "ref" = 1 := by
  have h := returned_items_identity
  have h4 := h.2.2.2 snapEvil (by decide) (by decide)
  exact ⟨h.1 _ _ _ _ (by simp), h4.1, h4.2.1, h4.2.2.1, h4.2.2.2⟩

/-- C10: cursor advancement preserves the page size: the cursor returned by
`cursorQuery` keeps the input cursor's `interval` (the spread
`\x7b ...cursor, startAfter, hasNext \x7d` copies it). -/
theorem cursorQuery_preserves_interval (l : List Snap) (c : QueryCursor) :
    (cursorQueryModel l (some c)).2.interval = c.interval := rfl

/-- Counterexample to C2 as stated: with a previous cursor of `interval = 0`
(an empty collection makes the page empty), the returned cursor has
`hasNext = true`, because the code computes `hasNext` as
`_length === cursor.interval` on the empty branch as well, and `0 === 0`. -/
theorem cursorQuery_advance_cex :
    (cursorQueryModel ([] : List Snap) (some ⟨0, true, none⟩)).1 = [] ∧
    (cursorQueryModel ([] : List Snap) (some ⟨0, true, none⟩)).2.hasNext = true := by
  decide

/-- C2 amended: on an empty page `startAfter` is carried over unchanged; on
a non-empty page `startAfter` becomes the `ref` of the last item; and in
both cases `hasNext` is true exactly when the page length equals the
previous cursor's `interval` — so an empty page gives `hasNext = false` only
when `interval` is nonzero. -/
theorem cursorQuery_advance_amended (l : List Snap) (c : QueryCursor) :
    ((cursorQueryModel l (some c)).1 = [] →
      (cursorQueryModel l (some c)).2.startAfter = c.startAfter) ∧
    (∀ last, (cursorQueryModel l (some c)).1.getLast? = some last →
      (cursorQueryModel l (some c)).2.startAfter = some (itemRef last)) ∧
    ((cursorQueryModel l (some c)).2.hasNext = true ↔
      (cursorQueryModel l (some c)).1.length = c.interval) := by
  have e1 : (cursorQueryModel l (some c)).1 = collectionQueryModel l (some c) := rfl
  have e2 : (cursorQueryModel l (some c)).2.startAfter =
      (match (collectionQueryModel l (some c)).getLast? with
        | none => c.startAfter
        | some last => some (itemRef last)) := rfl
  have e3 : (cursorQueryModel l (some c)).2.hasNext =
      decide ((collectionQueryModel l (some c)).length = c.interval) := rfl
  refine ⟨?_, ?_, ?_⟩
  · intro h
    rw [e1] at h
    rw [e2, h]
    rfl
  · intro last hlast
    rw [e1] at hlast
    rw [e2, hlast]
  · rw [e3, e1]
    exact decide_eq_true_iff

/-- Witness for C2 amended: a one-snapshot collection with page size 1; the
returned cursor points after the returned item and reports `hasNext`. -/
theorem cursorQuery_advance_amended_witness :
    (cursorQueryModel [snapA] (some ⟨1, true, none⟩)).2.startAfter =
      some (itemRef (buildItem snapA)) ∧
    ((cursorQueryModel [snapA] (some ⟨1, true, none⟩)).2.hasNext = true ↔
      (cursorQueryModel [snapA] (some ⟨1, true, none⟩)).1.length = 1) := by
  have h := cursorQuery_advance_amended [snapA] ⟨1, true, none⟩
  exact ⟨h.2.1 (buildItem snapA) (by decide), h.2.2⟩

/-- Counterexample to C5 as stated: a cursor with `interval = 0` does not
bound the query at all — `if (cursor.interval)` is a truthiness test, so
`limit(0)` is never applied and every record comes back. -/
theorem applyCursor_limit_cex :
    ¬((applyCursorModel [snapA] ⟨0, true, none⟩).length ≤
      (QueryCursor.mk 0 true none).interval) := by
  decide

/-- C5 amended: when `interval` is nonzero the result is bounded to at most
`interval` records; when `interval = 0` no limit is applied and the query
returns everything after the continuation point; whenever `startAfter` is
set (to a nonempty reference, the truthy case the code tests for), every
returned record lies strictly after it in name order. -/
theorem applyCursor_limit_amended (q : List Snap) (c : QueryCursor) :
    (c.interval ≠ 0 → (applyCursorModel q c).length ≤ c.interval) ∧
    (c.interval = 0 → applyCursorModel q c =
      (if strTruthy c.startAfter then
        q.filter (fun x => decide (c.startAfter.getD "" < x.path))
      else q)) ∧
    (∀ x ∈ applyCursorModel q c, strTruthy c.startAfter = true →
      c.startAfter.getD "" < x.path) := by
  refine ⟨?_, ?_, ?_⟩
  · intro h
    simp only [applyCursorModel, if_pos h]
    exact List.length_take_le _ _
  · intro h
    simp [applyCursorModel, h]
  · intro x hx htruthy
    simp only [applyCursorModel] at hx
    have hmem : x ∈ q.filter (fun x => decide (c.startAfter.getD "" < x.path)) := by
      by_cases h2 : c.interval ≠ 0
      · rw [if_pos h2] at hx
        have := List.take_subset _ _ hx
        rwa [if_pos htruthy] at this
      · rw [if_neg h2] at hx
        rwa [if_pos htruthy] at hx
    have := List.mem_filter.mp hmem
    simpa using this.2

/-- Witness for C5 amended: with `interval = 1` over a two-record
collection, at most one record is returned. -/
theorem applyCursor_limit_amended_witness :
    (applyCursorModel [snapA, snapB] ⟨1, true, none⟩).length ≤ 1 :=
  (applyCursor_limit_amended [snapA, snapB] ⟨1, true, none⟩).1 (by decide)

/-- Rewriting a ceiling-style division `(m + b - 1) / b` one step down. -/
theorem ceil_div_succ (b m : Nat) (hb : 0 < b) (hm : 0 < m) :
    (m + b - 1) / b = (m - 1) / b + 1 := by
  have h : m + b - 1 = (m - 1) + b := by omega
  rw [h, Nat.add_div_right _ hb]

/-- `deleteRun` computed in closed form, by strong induction on the
collection size. -/
theorem deleteRun_eq (b : Nat) (hb : 0 < b) :
    ∀ (n : Nat) (l : List String), l.length ≤ n →
      deleteRun b l = ((l.length + b - 1) / b + 1, l, [], true) := by
  intro n
  induction n with
  | zero =>
    intro l hlen
    have hnil : l = [] := List.eq_nil_of_length_eq_zero (by omega)
    subst hnil
    rw [deleteRun]
    simp [Nat.div_eq_of_lt (show b - 1 < b by omega)]
  | succ n ih =>
    intro l hlen
    rw [deleteRun]
    by_cases htake : l.take b = []
    · rw [dif_pos htake]
      have hnil : l = [] := by
        rcases List.take_eq_nil_iff.mp htake with h | h
        · omega
        · exact h
      subst hnil
      simp [Nat.div_eq_of_lt (show b - 1 < b by omega)]
    · rw [dif_neg htake]
      have hl0 : l ≠ [] := by
        intro hc
        simp [hc] at htake
      have hlen0 : 0 < l.length := List.length_pos.mpr hl0
      have ihd := ih (l.drop b) (by
        have hd : (l.drop b).length = l.length - b := List.length_drop _ _
        omega)
      rw [ihd]
      simp only [List.take_append_drop, List.length_drop]
      refine Prod.ext ?_ rfl
      simp only
      have hstep : (l.length - b + b - 1) / b + 1 + 1 = (l.length + b - 1) / b + 1 := by
        by_cases hcase : l.length ≤ b
        · have h1 : l.length - b = 0 := by omega
          rw [h1, Nat.div_eq_of_lt (show 0 + b - 1 < b by omega),
            ceil_div_succ b l.length hb hlen0,
            Nat.div_eq_of_lt (show l.length - 1 < b by omega)]
        · have h1 : l.length - b + b - 1 = l.length - 1 := by omega
          rw [h1, ceil_div_succ b l.length hb hlen0]
      exact hstep

/-- C1: deleting a collection of `N` records with batch size `b > 0` issues
exactly `ceil(N/b) + 1 = (N + b - 1)/b + 1` query rounds (the last of which
sees an empty snapshot and resolves), deletes the records in name order —
each exactly once when the refs are distinct — leaves the collection empty,
and resolves the promise with `true`. -/
theorem deleteCollection_rounds (b : Nat) (l : List String) (hb : 0 < b)
    (hl : l.Nodup) :
    deleteRun b l = ((l.length + b - 1) / b + 1, l, [], true) ∧
    ∀ r ∈ l, ((deleteRun b l).2.1).count r = 1 := by
  have hmain := deleteRun_eq b hb l.length l le_rfl
  refine ⟨hmain, ?_⟩
  intro r hr
  rw [hmain]
  exact List.count_eq_one_of_mem hl hr

/-- Witness for C1: 3 records, batch size 2 — two deleting rounds, one
empty-confirming round, everything deleted once, `true` returned. -/
theorem deleteCollection_rounds_witness :
    deleteRun 2 ["items/a", "items/b", "items/c"] =
      (3, ["items/a", "items/b", "items/c"], [], true) ∧
    (["items/a", "items/b", "items/c"] : List String).count "items/a" = 1 := by
  have h := deleteCollection_rounds 2 ["items/a", "items/b", "items/c"]
    (by decide) (by decide)
  exact ⟨h.1.trans (by decide), by decide⟩

/-- Counterexample to C4 as stated: a one-record collection whose round-2
fetch fails.  Round 1 succeeds and schedules round 2 through
`process.nextTick` without awaiting or catching it, so the round-2 rejection
reaches neither `resolve` nor `reject`: the promise stays pending instead of
rejecting with the failure. -/
theorem deleteCollection_failure_cex :
    deleteCollectionOutcome (fun n => if n = 2 then some 0 else none)
      (fun _ => none) 1 ["items/a"] = DelOutcome.pending ∧
    deleteCollectionOutcome (fun n => if n = 2 then some 0 else none)
      (fun _ => none) 1 ["items/a"] ≠ DelOutcome.rejected 0 := by
  have hchain : chainFrom (fun n => if n = 2 then some 0 else none)
      (fun _ => none) 1 2 ([] : List String) = Sum.inl 0 := by
    rw [chainFrom]
    norm_num
  have houtcome : deleteCollectionOutcome (fun n => if n = 2 then some 0 else none)
      (fun _ => none) 1 ["items/a"] = DelOutcome.pending := by
    rw [deleteCollectionOutcome]
    simp [hchain]
  exact ⟨houtcome, by rw [houtcome]; intro hc; cases hc⟩

/-- C4 amended: a storage-engine failure in the FIRST round (fetch or batch
commit) rejects the `deleteCollection` promise with that error unmodified;
but a failure whose first occurrence is in any later round leaves the
promise unsettled forever — neither resolved nor rejected — because the
recursive `_deleteQueryBatch` call scheduled via `process.nextTick` is never
awaited and has no rejection handler.  When no round fails the promise
resolves `true`. -/
theorem deleteCollection_failure_amended {E : Type} (fe ce : Nat → Option E)
    (b : Nat) (l : List String) (e : E) :
    (fe 1 = some e → deleteCollectionOutcome fe ce b l = DelOutcome.rejected e) ∧
    (fe 1 = none → l.take b ≠ [] → ce 1 = some e →
      deleteCollectionOutcome fe ce b l = DelOutcome.rejected e) ∧
    (fe 1 = none → l.take b ≠ [] → ce 1 = none →
      chainFrom fe ce b 2 (l.drop b) = Sum.inl e →
      deleteCollectionOutcome fe ce b l = DelOutcome.pending) ∧
    (fe 1 = none → l.take b ≠ [] → ce 1 = none →
      chainFrom fe ce b 2 (l.drop b) = Sum.inr true →
      deleteCollectionOutcome fe ce b l = DelOutcome.resolved true) := by
  refine ⟨?_, ?_, ?_, ?_⟩
  · intro h1
    simp [deleteCollectionOutcome, h1]
  · intro h1 h2 h3
    simp [deleteCollectionOutcome, h1, h2, h3]
  · intro h1 h2 h3 h4
    simp [deleteCollectionOutcome, h1, h2, h3, h4]
  · intro h1 h2 h3 h4
    simp [deleteCollectionOutcome, h1, h2, h3, h4]

/-- Witness for C4 amended: a first-round fetch failure is rejected to the
caller. -/
theorem deleteCollection_failure_amended_witness :
    deleteCollectionOutcome (fun _ => some 0) (fun _ => none) 1 ["items/a"] =
      DelOutcome.rejected 0 :=
  (deleteCollection_failure_amended (fun _ => some 0) (fun _ => none)
    1 ["items/a"] 0).1 rfl

/-- The `ref` of a built item is the snapshot's fully qualified path. -/
theorem itemRef_buildItem (s : Snap) : itemRef (buildItem s) = s.path := by
  unfold itemRef buildItem
  rw [getField_setField_self]

/-- In a strictly name-ordered collection, the records strictly after the
`i`-th one are exactly the suffix that follows it. -/
theorem filter_path_gt_getElem (l : List Snap)
    (hl : l.Pairwise (fun a b => a.path < b.path)) :
    ∀ (i : Nat) (h : i < l.length),
      l.filter (fun x => decide (l[i].path < x.path)) = l.drop (i + 1) := by
  induction l with
  | nil =>
    intro i h
    exact absurd h (by simp)
  | cons a t ih =>
    intro i h
    rcases List.pairwise_cons.mp hl with ⟨ha, ht⟩
    cases i with
    | zero =>
      simp only [List.getElem_cons_zero, List.drop_succ_cons, List.drop_zero]
      rw [List.filter_cons_of_neg (by simp)]
      rw [List.filter_eq_self]
      intro x hx
      simpa using ha x hx
    | succ j =>
      have hj : j < t.length := by simpa using h
      simp only [List.getElem_cons_succ, List.drop_succ_cons]
      rw [List.filter_cons_of_neg (by simpa using lt_asymm (ha _ (List.getElem_mem hj)))]
      exact ih ht j hj

/-- Core invariant of the pagination session: if the records still ahead of
the current cursor are exactly the suffix `l.drop k`, the remaining session
returns that suffix (as built items) in `(l.length - k) / p + 1` calls. -/
theorem paginate_drop (l : List Snap)
    (hl : l.Pairwise (fun a b => a.path < b.path))
    (hne : ∀ x ∈ l, x.path ≠ "") (p : Nat) (hp : 0 < p) :
    ∀ (fuel k : Nat) (c : QueryCursor), c.interval = p →
      remQ l c = l.drop k → k ≤ l.length → l.length - k < fuel →
      paginate l c fuel = ((l.drop k).map buildItem, (l.length - k) / p + 1) := by
  intro fuel
  induction fuel with
  | zero =>
    intro k c _ _ _ hf
    exact absurd hf (by omega)
  | succ n ih =>
    intro k c hc hrem hk hf
    have hintne : c.interval ≠ 0 := by omega
    have hsnaps : applyCursorModel l c = (l.drop k).take p := by
      show (if c.interval ≠ 0 then (remQ l c).take c.interval else remQ l c) = _
      rw [if_pos hintne, hrem, hc]
    have hD : collectionQueryModel l (some c) = ((l.drop k).take p).map buildItem := by
      show (applyCursorModel l c).map buildItem = _
      rw [hsnaps]
    have hlen_drop : (l.drop k).length = l.length - k := List.length_drop _ _
    have e1 : (cursorQueryModel l (some c)).1 = collectionQueryModel l (some c) := rfl
    have e2 : (cursorQueryModel l (some c)).2.hasNext =
        decide ((collectionQueryModel l (some c)).length = c.interval) := rfl
    simp only [paginate]
    by_cases hcase : l.length - k < p
    · -- last page: fewer than `p` records remain, `hasNext` comes back false
      have htake : (l.drop k).take p = l.drop k := List.take_of_length_le (by omega)
      have hDlen : (collectionQueryModel l (some c)).length = l.length - k := by
        rw [hD, htake, List.length_map, hlen_drop]
      have hhn : (cursorQueryModel l (some c)).2.hasNext = false := by
        rw [e2, hDlen, hc]
        exact decide_eq_false (by omega)
      rw [hhn]
      simp only [Bool.false_eq_true, if_false]
      rw [e1, hD, htake, Nat.div_eq_of_lt hcase]
    · -- full page: exactly `p` records returned, `hasNext` comes back true
      have hlen_take : ((l.drop k).take p).length = p := by
        rw [List.length_take, hlen_drop]
        omega
      have hDlen : (collectionQueryModel l (some c)).length = p := by
        rw [hD, List.length_map, hlen_take]
      have hhn : (cursorQueryModel l (some c)).2.hasNext = true := by
        rw [e2, hDlen, hc]
        exact decide_eq_true rfl
      rw [hhn]
      simp only [if_true]
      have hboundd : k + (p - 1) < l.length := by omega
      have hbound : p - 1 < ((l.drop k).take p).length := by
        rw [hlen_take]
        omega
      have hboundk : p - 1 < (l.drop k).length := by
        rw [hlen_drop]
        omega
      have hgl : ((l.drop k).take p).getLast? = some (l[k + (p - 1)]) := by
        rw [List.getLast?_eq_getElem?, hlen_take, List.getElem?_eq_getElem hbound]
        congr 1
        calc ((l.drop k).take p)[p - 1] = (l.drop k)[p - 1] :=
              (List.getElem_take' (l.drop k) hboundk (by omega)).symm
          _ = l[k + (p - 1)] := List.getElem_drop l
      have hgetlast : (collectionQueryModel l (some c)).getLast? =
          some (buildItem (l[k + (p - 1)])) := by
        rw [hD, List.getLast?_map, hgl]
        rfl
      have hsa : (cursorQueryModel l (some c)).2.startAfter =
          some ((l[k + (p - 1)]).path) := by
        show (match (collectionQueryModel l (some c)).getLast? with
          | none => c.startAfter
          | some last => some (itemRef last)) = _
        rw [hgetlast]
        simp [itemRef_buildItem]
      have hpne : (l[k + (p - 1)]).path ≠ "" := hne _ (List.getElem_mem hboundd)
      have hremnew : remQ l (cursorQueryModel l (some c)).2 = l.drop (k + p) := by
        unfold remQ
        rw [hsa]
        have htr : strTruthy (some ((l[k + (p - 1)]).path)) = true := by
          simp [strTruthy, hpne]
        rw [if_pos htr]
        simp only [Option.getD_some]
        have hidx : k + (p - 1) + 1 = k + p := by omega
        rw [filter_path_gt_getElem l hl (k + (p - 1)) hboundd, hidx]
      have hintnew : (cursorQueryModel l (some c)).2.interval = p := by
        rw [show (cursorQueryModel l (some c)).2.interval = c.interval from rfl, hc]
      have hihd := ih (k + p) (cursorQueryModel l (some c)).2 hintnew hremnew
        (by omega) (by omega)
      rw [hihd]
      have hsplit : (l.drop k).take p ++ l.drop (k + p) = l.drop k := by
        rw [← List.drop_drop p k l, List.take_append_drop]
      have harith : (l.length - k) / p = (l.length - (k + p)) / p + 1 := by
        have h1 : l.length - k = (l.length - (k + p)) + p := by omega
        rw [h1, Nat.add_div_right _ hp]
      rw [e1, hD, ← List.map_append, hsplit, harith]

/-- Floor-plus-one versus ceiling: `N/p + 1` is the ceiling of `N/p` when
`p` does not divide `N`, and the ceiling plus one when it does. -/
theorem div_succ_ceil_cases (N p : Nat) (hp : 0 < p) :
    N / p + 1 = (N + p - 1) / p ∨ N / p + 1 = (N + p - 1) / p + 1 := by
  rcases Nat.eq_zero_or_pos N with hN | hN
  · right
    subst hN
    simp [Nat.div_eq_of_lt (show p - 1 < p by omega)]
  · have hrw : N + p - 1 = (N - 1) + p := by omega
    rw [hrw, Nat.add_div_right _ hp]
    have hs := Nat.succ_div (N - 1) p
    have hN1 : N - 1 + 1 = N := by omega
    rw [hN1] at hs
    by_cases hd : p ∣ N
    · right
      rw [if_pos hd] at hs
      omega
    · left
      rw [if_neg hd] at hs
      omega

/-- C3: over a strictly name-ordered collection of `N` records (document
paths are nonempty), a pagination session with page size `p > 0` that starts
with a fresh cursor, feeds every returned cursor back in, and stops when the
returned cursor has `hasNext = false`, returns exactly the `N` records — no
duplicates, no omissions, in order — in `N/p + 1` calls, which is `ceil(N/p)`
when `p` does not divide `N` and `ceil(N/p) + 1` (a final empty-confirming
call) when it does. -/
theorem cursorQuery_roundtrip (l : List Snap) (p : Nat) (hp : 0 < p)
    (hl : l.Pairwise (fun a b => a.path < b.path))
    (hne : ∀ x ∈ l, x.path ≠ "") :
    paginateAll l p = (l.map buildItem, l.length / p + 1) ∧
    (l.length / p + 1 = (l.length + p - 1) / p ∨
     l.length / p + 1 = (l.length + p - 1) / p + 1) := by
  constructor
  · have h := paginate_drop l hl hne p hp (l.length + 1) 0 ⟨p, true, none⟩ rfl
      (by simp [remQ, strTruthy]) (by omega) (by omega)
    simpa [paginateAll] using h
  · exact div_succ_ceil_cases l.length p hp

/-- Witness for C3: three records, page size 2 — two calls (2 then 1
records), all records retrieved once, in order. -/
theorem cursorQuery_roundtrip_witness :
    paginateAll [snapA, snapB, snapC] 2 =
      ([buildItem snapA, buildItem snapB, buildItem snapC], 2) := by
  have h := cursorQuery_roundtrip [snapA, snapB, snapC] 2 (by decide)
    (by
      simp [List.pairwise_cons, String.lt_iff_toList_lt, snapA, snapB, snapC]
      decide)
    (by decide)
  exact h.1.trans (by decide)

/-- Allocation does not disturb live cells. -/
theorem Store.read_alloc_old [Inhabited α] (σ : Store α) (v : α) (a : Nat)
    (h : a < σ.cells.length) : (σ.alloc v).1.read a = σ.read a := by
  simp [Store.alloc, Store.read, List.getElem?_append_left h]

/-- Reading back the freshly allocated cell. -/
theorem Store.read_alloc_fresh [Inhabited α] (σ : Store α) (v : α) :
    (σ.alloc v).1.read (σ.alloc v).2 = v := by
  simp [Store.alloc, Store.read, List.getElem?_concat_length]

/-- Reading back a live cell just written. -/
theorem Store.read_write_self [Inhabited α] (σ : Store α) (a : Nat) (v : α)
    (h : a < σ.cells.length) : (σ.write a v).read a = v := by
  simp [Store.write, Store.read, List.getElem?_set_self h]

/-- Writing one cell does not disturb any other. -/
theorem Store.read_write_ne [Inhabited α] (σ : Store α) (a b : Nat) (v : α)
    (h : a ≠ b) : (σ.write a v).read b = σ.read b := by
  simp [Store.write, Store.read, List.getElem?_set_ne h]

/-- Writing preserves the extent of the store. -/
theorem Store.write_length (σ : Store α) (a : Nat) (v : α) :
    (σ.write a v).cells.length = σ.cells.length := by
  simp [Store.write]

/-- C9: no operation mutates a caller-supplied argument in place.  In the
store model: `queryData` leaves its argument's cell unchanged — the input
still carries its `id` and `ref` after the call — and returns a distinct,
freshly allocated cell holding the stripped copy (the two `delete`
statements hit the clone, never the argument); `cursorQuery` leaves the
input cursor's cell unchanged and returns a distinct fresh cell holding the
advanced cursor; `_applyQueryConstraints` returns the constraint store
exactly as it received it, so the constraint list and every constraint in it
are unchanged. -/
theorem no_inplace_mutation :
    (∀ (σ : Store Obj) (a : Nat), a < σ.cells.length →
      (queryDataStore σ a).1.read a = σ.read a ∧
      (queryDataStore σ a).2 ≠ a ∧
      (queryDataStore σ a).1.read (queryDataStore σ a).2 = queryData (σ.read a)) ∧
    (∀ (l : List Snap) (σ : Store QueryCursor) (cur : Nat), cur < σ.cells.length →
      (cursorQueryStore l σ cur).1.read cur = σ.read cur ∧
      (cursorQueryStore l σ cur).2.1 ≠ cur ∧
      (cursorQueryStore l σ cur).1.read (cursorQueryStore l σ cur).2.1 =
        (cursorQueryModel l (some (σ.read cur))).2) ∧
    (∀ (σ : Store QueryConstraint) (query : List QueryConstraint)
        (queryConstraints : List Nat),
      (applyQueryConstraintsStore σ query queryConstraints).1 = σ ∧
      ∀ a ∈ queryConstraints,
        (applyQueryConstraintsStore σ query queryConstraints).1.read a = σ.read a) := by
  refine ⟨?_, ?_, ?_⟩
  · intro σ a ha
    have hne : (σ.alloc (σ.read a)).2 ≠ a := by
      simp only [Store.alloc]
      omega
    refine ⟨?_, ?_, ?_⟩
    · simp only [queryDataStore]
      rw [Store.read_write_ne _ _ _ _ hne, Store.read_write_ne _ _ _ _ hne,
        Store.read_alloc_old σ _ a ha]
    · simp only [queryDataStore, Store.alloc]
      omega
    · have hlt : (σ.alloc (σ.read a)).2 < (σ.alloc (σ.read a)).1.cells.length := by
        simp [Store.alloc]
      simp only [queryDataStore]
      rw [Store.read_write_self _ _ _ (by rw [Store.write_length]; exact hlt),
        Store.read_write_self _ _ _ hlt, Store.read_alloc_fresh]
      rfl
  · intro l σ cur hcur
    refine ⟨?_, ?_, ?_⟩
    · simp only [cursorQueryStore]
      exact Store.read_alloc_old σ _ cur hcur
    · simp only [cursorQueryStore, Store.alloc]
      omega
    · simp only [cursorQueryStore]
      exact Store.read_alloc_fresh σ _
  · intro σ query queryConstraints
    exact ⟨rfl, fun a _ => rfl⟩

/-- Witness for C9: a one-object heap whose object carries `id`, a payload
field and `ref`; after `queryData` the argument cell is bit-for-bit the
original (ids included), the clone lives at a different address and holds
the stripped copy; the cursor and constraint cells likewise come back
untouched. -/
theorem no_inplace_mutation_witness :
    (queryDataStore ⟨[objEx]⟩ 0).1.read 0 = objEx ∧
    (queryDataStore ⟨[objEx]⟩ 0).2 ≠ 0 ∧
    (queryDataStore ⟨[objEx]⟩ 0).1.read (queryDataStore ⟨[objEx]⟩ 0).2 =
      queryData objEx ∧
    (cursorQueryStore [snapA] ⟨[⟨1, true, none⟩]⟩ 0).1.read 0 = ⟨1, true, none⟩ ∧
    (applyQueryConstraintsStore ⟨[QueryConstraint.whereC "x" "==" (Value.nat 3)]⟩
      [] [0]).1 = ⟨[QueryConstraint.whereC "x" "==" (Value.nat 3)]⟩ := by
  have h1 := no_inplace_mutation.1 ⟨[objEx]⟩ 0 (by decide)
  have h2 := no_inplace_mutation.2.1 [snapA] ⟨[⟨1, true, none⟩]⟩ 0 (by decide)
  have h3 := no_inplace_mutation.2.2
    ⟨[QueryConstraint.whereC "x" "==" (Value.nat 3)]⟩ [] [0]
  exact ⟨h1.1.trans (by decide), h1.2.1, h1.2.2, h2.1.trans (by decide), h3.1⟩
